import Mathlib

/-!
Verification of the early-boot physical-memory ledger (memblock) against its
specification.  The repository ships the test suite
(`tools/testing/memblock/tests/basic_api.c`); the ledger implementation itself
is not part of the sources, so every operation below is modelled from the
specification's §3–§4.7 (data model, insert-with-merge, subtract, grower,
overlap query, trim pass, node tagger), with initialization constants taken
from the assertions of `memblock_initialization_check` in the test suite.
Addresses are natural numbers saturating at `physAddrMax`; collections are
ordered lists of regions; the region counter `cnt` is the list length.
-/

/-- Modelled from the spec: the maximum representable physical address
(`PHYS_ADDR_MAX` for a 64-bit `phys_addr_t`); address arithmetic saturates
here. -/
def physAddrMax : Nat := 2 ^ 64 - 1

/-- Modelled from the spec: the platform's allocation granularity (page size)
used to round up the grower's storage size. -/
def pageSize : Nat := 4096

/-- Modelled from the spec: the size of one stored region entry
(`sizeof(struct memblock_region)` on a 64-bit configuration without NUMA). -/
def regionEntrySize : Nat := 24

/-- Modelled from the spec: round `n` up to a multiple of `a`. -/
def roundUpTo (n a : Nat) : Nat := (n + a - 1) / a * a

/-- Modelled from the spec: round `n` down to a multiple of `a`. -/
def roundDownTo (n a : Nat) : Nat := n / a * a

/-- Modelled from the spec: `PAGE_ALIGN`, rounding up to the allocation
granularity. -/
def pageAlign (n : Nat) : Nat := roundUpTo n pageSize

/-- Modelled from the spec: the "no restriction" allocation limit
(`MEMBLOCK_ALLOC_ANYWHERE`, i.e. the all-ones physical address). -/
def memblockAllocAnywhere : Nat := physAddrMax

/-- Modelled from the spec: the node id used when a range carries no NUMA
node (`NUMA_NO_NODE`). -/
def numaNoNode : Int := -1

/-- Modelled from the spec's data model: one maximal contiguous interval
`[base, base+size)` with an optional node id and a flag bitset. -/
structure Region where
  base : Nat
  size : Nat
  nid : Int
  flags : Nat
deriving Repr, DecidableEq

/-- End address (one past the last byte) of a region. -/
def Region.stop (r : Region) : Nat := r.base + r.size

/-- Modelled from the spec's data model: a region collection
(`struct memblock_type`): ordered regions, capacity `max`, aggregate
`total_size`, a name tag, and the location of its current dynamically placed
backing storage (`none` while the initial static array is in use). -/
structure MemblockType where
  regions : List Region
  max : Nat
  total_size : Nat
  name : String
  storage : Option (Nat × Nat)
deriving Repr, DecidableEq

/-- The region counter of a collection (`cnt`): the number of live regions. -/
def MemblockType.cnt (c : MemblockType) : Nat := c.regions.length

/-- Modelled from the spec: the process-wide allocator context holding the
available (`memory`) and claimed (`reserved`) collections, the search
direction policy and the allocation limit. -/
structure Memblock where
  memory : MemblockType
  reserved : MemblockType
  bottom_up : Bool
  current_limit : Nat
deriving Repr, DecidableEq

/-- Selector for the two collections of the allocator context. -/
inductive MType where
  | memory
  | reserved
deriving Repr, DecidableEq

/-- Read the selected collection. -/
def getType (mb : Memblock) : MType → MemblockType
  | .memory => mb.memory
  | .reserved => mb.reserved

/-- Replace the selected collection. -/
def setType (mb : Memblock) : MType → MemblockType → Memblock
  | .memory, c => { mb with memory := c }
  | .reserved, c => { mb with reserved := c }

/-- Modelled from the spec: clamp a size so `[base, base+size)` never extends
past the maximum representable address (`memblock_cap_size`). -/
def memblock_cap_size (base size : Nat) : Nat := min size (physAddrMax - base)

/-- Modelled from the spec's merge tie-break: the region spanning two merged
ranges, from the smaller base to the larger end; it carries the attributes of
the range being inserted. -/
def span (x r : Region) : Region :=
  { base := min x.base r.base
    size := max x.stop r.stop - min x.base r.base
    nid := r.nid
    flags := r.flags }

/-- Modelled from the spec §4.2: insert a range into a sorted collection,
absorbing every existing region that overlaps or is exactly adjacent, and
repeating until no further neighbour touches the (grown) interval. -/
def insertMerge : List Region → Region → List Region
  | [], r => [r]
  | x :: xs, r =>
    if x.stop < r.base then x :: insertMerge xs r
    else if r.stop < x.base then r :: x :: xs
    else insertMerge xs (span x r)

/-- Sum of the region sizes of a list. -/
def sumSizes : List Region → Nat
  | [] => 0
  | r :: l => r.size + sumSizes l

/-- Length of the intersection of region `r` with `[b, e)`. -/
def intersectLen (r : Region) (b e : Nat) : Nat :=
  min e r.stop - max b r.base

/-- Modelled from the spec §4.3: effect of removing `[b, e)` on a single
region: untouched if they do not overlap, deleted if fully covered, shrunk if
the cut touches one end, split into head and tail if the cut is strictly
interior. -/
def subtractOne (r : Region) (b e : Nat) : List Region :=
  if e ≤ r.base ∨ r.stop ≤ b then [r]
  else if b ≤ r.base ∧ r.stop ≤ e then []
  else if b ≤ r.base then [{ r with base := e, size := r.stop - e }]
  else if r.stop ≤ e then [{ r with size := b - r.base }]
  else [{ r with size := b - r.base }, { r with base := e, size := r.stop - e }]

/-- Modelled from the spec §4.3: remove `[b, e)` from every region of the
list, each processed independently. -/
def subtractList (l : List Region) (b e : Nat) : List Region :=
  match l with
  | [] => []
  | r :: rest => subtractOne r b e ++ subtractList rest b e

/-- Total intersected length of `[b, e)` with the regions of a list: the
amount by which a subtract operation decrements `total_size`. -/
def sumIntersect (l : List Region) (b e : Nat) : Nat :=
  match l with
  | [] => 0
  | r :: rest => intersectLen r b e + sumIntersect rest b e

/-- Modelled from the spec §4.6: the aligned interval of one region under the
trim pass: base rounded up, end rounded down; `some` replacement when the
aligned interval has positive length, `none` (deletion) otherwise. -/
def trimRegion (a : Nat) (r : Region) : Option Region :=
  let s := roundUpTo r.base a
  let e := roundDownTo r.stop a
  if s < e then some { r with base := s, size := e - s } else none

/-- Modelled from the spec §4.6: the trim pass over a region list, replacing
each region by its aligned interval and deleting those that would become
empty. -/
def trimList (a : Nat) : List Region → List Region
  | [] => []
  | r :: rest =>
    let s := roundUpTo r.base a
    let e := roundDownTo r.stop a
    if s < e then { r with base := s, size := e - s } :: trimList a rest
    else trimList a rest

/-- Modelled from the spec §4.7: node tagging of one region: a region not
intersecting `[b, e)` is untouched; otherwise it is split into an optional
head, the intersection carrying the new node id, and an optional tail. -/
def setNodeOne (nid : Int) (b e : Nat) (r : Region) : List Region :=
  if e ≤ r.base ∨ r.stop ≤ b then [r]
  else if r.nid = nid then [r]
  else
    (if r.base < b then [{ r with size := b - r.base }] else []) ++
      [{ base := max r.base b, size := min r.stop e - max r.base b,
         nid := nid, flags := r.flags }] ++
      (if e < r.stop then [{ r with base := e, size := r.stop - e }] else [])

/-- Modelled from the spec §4.7: the node tagging pass over a region list. -/
def setNodeList (nid : Int) (b e : Nat) : List Region → List Region
  | [] => []
  | r :: rest => setNodeOne nid b e r ++ setNodeList nid b e rest

/-- Well-formedness of a region list with a lower bound: every base is at
least `lo`, regions are sorted by base, and consecutive regions do not
overlap (each ends no later than the next begins). -/
def wfB (lo : Nat) : List Region → Bool
  | [] => true
  | r :: rest => decide (lo ≤ r.base) && wfB r.stop rest

/-- Modelled from the spec §4.4 step 3: bottom-up free-space search: first
fit at the lowest address. -/
def findFitBottom (n : Nat) : List Region → Option Nat
  | [] => none
  | x :: xs => if n ≤ x.size then some x.base else findFitBottom n xs

/-- Modelled from the spec §4.4 step 3: top-down free-space search: first fit
from the highest address, placing at the top of the chosen free range. -/
def findFitTop (n : Nat) : List Region → Option Nat
  | [] => none
  | x :: xs =>
    match findFitTop n xs with
    | some a => some a
    | none => if n ≤ x.size then some (x.stop - n) else none

/-- Modelled from the spec §4.4 step 3: free-space search following the
`bottom_up` direction policy. -/
def findFit (n : Nat) (bottomUp : Bool) (l : List Region) : Option Nat :=
  if bottomUp then findFitBottom n l else findFitTop n l

/-- Modelled from the spec §4.4 step 2: the free space available to the
grower: the available collection's ranges minus every claimed range, minus
the collection's own current backing storage, minus the specific range
`[b, e)` being inserted by the operation that triggered growth. -/
def freeForGrow (mb : Memblock) (t : MType) (b e : Nat) : List Region :=
  let noReserved :=
    mb.reserved.regions.foldl
      (fun acc r => subtractList acc r.base r.stop) mb.memory.regions
  let noStorage :=
    match (getType mb t).storage with
    | none => noReserved
    | some (sb, sn) => subtractList noReserved sb (sb + sn)
  subtractList noStorage b e

/-- Modelled from the spec §4.4: the backing-store grower
(`memblock_double_array`): double the capacity, search the available free
space (excluding the old storage and the triggering range `[b, e)`) for the
page-aligned doubled storage, switch capacity and storage, and claim the
consumed range by an insert on the reserved collection.  Fails (`none`) only
when no candidate range exists or the claimed collection cannot absorb the
new entry. -/
def memblock_double_array (mb : Memblock) (t : MType) (b e : Nat) :
    Option Memblock :=
  let X := getType mb t
  let newMax := 2 * X.max
  let newSize := pageAlign (newMax * regionEntrySize)
  match findFit newSize mb.bottom_up (freeForGrow mb t b e) with
  | none => none
  | some addr =>
    let mb' := setType mb t { X with max := newMax, storage := some (addr, newSize) }
    let newRes :=
      insertMerge mb'.reserved.regions ⟨addr, newSize, numaNoNode, 0⟩
    if newRes.length ≤ mb'.reserved.max then
      some { mb' with reserved :=
        { mb'.reserved with regions := newRes, total_size := sumSizes newRes } }
    else none

/-- Modelled from the spec §4.2: the insert operation (`memblock_add_range`):
clamp the size, insert with merge; when the collection cannot hold the result
run the grower transparently and retry; recompute `total_size` as the sum of
all sizes. -/
def memblock_add_range (mb : Memblock) (t : MType) (b s : Nat)
    (nid : Int) (flags : Nat) : Option Memblock :=
  let s' := memblock_cap_size b s
  if s' = 0 then some mb
  else
    let r : Region := ⟨b, s', nid, flags⟩
    let X := getType mb t
    let newRegs := insertMerge X.regions r
    if newRegs.length ≤ X.max then
      some (setType mb t
        { X with regions := newRegs, total_size := sumSizes newRegs })
    else
      match memblock_double_array mb t b (b + s') with
      | none => none
      | some mb2 =>
        let X2 := getType mb2 t
        let regs2 := insertMerge X2.regions r
        if regs2.length ≤ X2.max then
          some (setType mb2 t
            { X2 with regions := regs2, total_size := sumSizes regs2 })
        else none

/-- Modelled from the spec: `memblock_add`, registering a range as available
memory. -/
def memblock_add (mb : Memblock) (b s : Nat) : Option Memblock :=
  memblock_add_range mb .memory b s numaNoNode 0

/-- Modelled from the spec: `memblock_reserve`, claiming a range. -/
def memblock_reserve (mb : Memblock) (b s : Nat) : Option Memblock :=
  memblock_add_range mb .reserved b s numaNoNode 0

/-- Modelled from the spec §4.3: the subtract operation on one collection:
remove the clamped range from every region and decrement `total_size` by
exactly the intersected amount. -/
def memblock_remove_range (c : MemblockType) (b s : Nat) : MemblockType :=
  let e := b + memblock_cap_size b s
  { c with regions := subtractList c.regions b e
           total_size := c.total_size - sumIntersect c.regions b e }

/-- Modelled from the spec: `memblock_remove`, removing a range from the
available collection. -/
def memblock_remove (mb : Memblock) (b s : Nat) : Memblock :=
  { mb with memory := memblock_remove_range mb.memory b s }

/-- Modelled from the spec: `memblock_free`, releasing a claimed range. -/
def memblock_free (mb : Memblock) (b s : Nat) : Memblock :=
  { mb with reserved := memblock_remove_range mb.reserved b s }

/-- Modelled from the spec §4.6: `memblock_trim_memory`, the alignment trim
pass over the available collection. -/
def memblock_trim_memory (mb : Memblock) (a : Nat) : Memblock :=
  { mb with memory :=
    { mb.memory with regions := trimList a mb.memory.regions
                     total_size := sumSizes (trimList a mb.memory.regions) } }

/-- Modelled from the spec §4.5: the overlap query
(`memblock_overlaps_region`): true iff the clamped query range has a
non-zero-length intersection with some region of the collection. -/
def memblock_overlaps_region (c : MemblockType) (b s : Nat) : Bool :=
  let e := b + memblock_cap_size b s
  c.regions.any (fun r => decide (b < r.stop ∧ r.base < e))

/-- Modelled from the spec §4.7: `memblock_set_node`: retag the clamped range
in the selected collection, splitting regions on boundary mismatch; may
trigger the grower when the splits exceed the capacity. -/
def memblock_set_node (mb : Memblock) (b s : Nat) (t : MType) (nid : Int) :
    Option Memblock :=
  let e := b + memblock_cap_size b s
  let X := getType mb t
  let newRegs := setNodeList nid b e X.regions
  if newRegs.length ≤ X.max then
    some (setType mb t { X with regions := newRegs })
  else
    match memblock_double_array mb t b e with
    | none => none
    | some mb2 =>
      let X2 := getType mb2 t
      let regs2 := setNodeList nid b e X2.regions
      if regs2.length ≤ X2.max then
        some (setType mb2 t { X2 with regions := regs2 })
      else none

/-- Modelled from the spec and the initialization assertions of the test
suite: the boot-time state: both collections empty with capacity 128, named
"memory" and "reserved", using their static backing arrays, top-down search
policy and unrestricted allocation limit. -/
def memblockInit : Memblock :=
  { memory := ⟨[], 128, 0, "memory", none⟩
    reserved := ⟨[], 128, 0, "reserved", none⟩
    bottom_up := false
    current_limit := memblockAllocAnywhere }

/-- One completed operation of the ledger's mutating interface. -/
inductive MemblockOp where
  | add (b s : Nat)
  | addNode (b s : Nat) (nid : Int) (flags : Nat)
  | reserve (b s : Nat)
  | remove (b s : Nat)
  | free (b s : Nat)
  | trim (a : Nat)
  | setNode (b s : Nat) (t : MType) (nid : Int)
deriving Repr, DecidableEq

/-- Apply one operation to the allocator state; `none` is the fatal
out-of-storage abort. -/
def applyOp (mb : Memblock) : MemblockOp → Option Memblock
  | .add b s => memblock_add mb b s
  | .addNode b s nid flags => memblock_add_range mb .memory b s nid flags
  | .reserve b s => memblock_reserve mb b s
  | .remove b s => some (memblock_remove mb b s)
  | .free b s => some (memblock_free mb b s)
  | .trim a => some (memblock_trim_memory mb a)
  | .setNode b s t nid => memblock_set_node mb b s t nid

/-- The aggregate-statistics invariant: the `total_size` field equals the sum
of the region sizes. -/
def TotalOK (c : MemblockType) : Prop := c.total_size = sumSizes c.regions

/-! ### Concrete demonstration states used by the witnesses -/

/-- Concrete state used to exercise the absent-range no-op: one available
region at 512K of size 4M and one claimed region at 2M of size 8K. -/
def absentDemo : Memblock :=
  { memory := ⟨[⟨524288, 4194304, numaNoNode, 0⟩], 128, 4194304, "memory", none⟩
    reserved := ⟨[⟨2097152, 8192, numaNoNode, 0⟩], 128, 8192, "reserved", none⟩
    bottom_up := false
    current_limit := memblockAllocAnywhere }

/-- Concrete collection holding the single region `[0, 10)`, used for the
boundary examples of the overlap query. -/
def overlapDemo : MemblockType := ⟨[⟨0, 10, numaNoNode, 0⟩], 128, 10, "memory", none⟩

/-- Concrete state for the trim examples: one region aligned to 64 on both
ends and one smaller than the alignment, as in the test suite's
too-small trim scenario. -/
def trimDemo : Memblock :=
  { memory := ⟨[⟨64, 128, numaNoNode, 0⟩, ⟨256, 62, numaNoNode, 0⟩], 128,
      190, "memory", none⟩
    reserved := ⟨[], 128, 0, "reserved", none⟩
    bottom_up := false
    current_limit := memblockAllocAnywhere }

/-- Concrete state for the interior-split examples: one available region
`[1M, 33M)` and one claimed region `[1M, 9M)`. -/
def splitDemo : Memblock :=
  { memory := ⟨[⟨1048576, 33554432, numaNoNode, 0⟩], 128, 33554432, "memory", none⟩
    reserved := ⟨[⟨1048576, 8388608, numaNoNode, 0⟩], 128, 8388608, "reserved", none⟩
    bottom_up := false
    current_limit := memblockAllocAnywhere }

/-- Concrete state driving the grower: one available 8K region at 4096, a
claimed collection already full at its capacity of 2, and a pending reserve
whose range is carved out of the only free space. -/
def growDemo : Memblock :=
  { memory := ⟨[⟨4096, 8192, numaNoNode, 0⟩], 128, 8192, "memory", none⟩
    reserved := ⟨[⟨65536, 64, numaNoNode, 0⟩, ⟨73728, 64, numaNoNode, 0⟩], 2,
      128, "reserved", none⟩
    bottom_up := false
    current_limit := memblockAllocAnywhere }

/-- The state after the growth-triggering reserve on `growDemo`. -/
def growDemoAfter : Memblock := (memblock_reserve growDemo 8192 64).getD growDemo

/-- Concrete state whose available collection is full at capacity 2, with the
claimed collection empty, used to drive growth of the available collection. -/
def growMemDemo : Memblock :=
  { memory := ⟨[⟨4096, 8192, numaNoNode, 0⟩, ⟨65536, 64, numaNoNode, 0⟩], 2,
      8256, "memory", none⟩
    reserved := ⟨[], 2, 0, "reserved", none⟩
    bottom_up := false
    current_limit := memblockAllocAnywhere }

example : memblock_add memblockInit 4096 8192 =
    some { memblockInit with
           memory := ⟨[⟨4096, 8192, numaNoNode, 0⟩], 128, 8192, "memory", none⟩ } := by
  decide

example :
    (memblock_add memblockInit 4096 4096).bind (fun m => memblock_add m 8192 4096) =
    some { memblockInit with
           memory := ⟨[⟨4096, 8192, numaNoNode, 0⟩], 128, 8192, "memory", none⟩ } := by
  decide

/-! ### Well-formedness helpers -/

theorem stop_def (r : Region) : r.stop = r.base + r.size := rfl

theorem base_le_stop (r : Region) : r.base ≤ r.stop := Nat.le_add_right _ _

theorem wfB_mono {a b : Nat} {l : List Region} (h : wfB a l = true) (hba : b ≤ a) :
    wfB b l = true := by
  cases l with
  | nil => rfl
  | cons x xs =>
    simp only [wfB, Bool.and_eq_true, decide_eq_true_eq] at h ⊢
    exact ⟨le_trans hba h.1, h.2⟩

theorem wfB_all {lo : Nat} {l : List Region} (h : wfB lo l = true) :
    ∀ y ∈ l, lo ≤ y.base := by
  induction l generalizing lo with
  | nil => intro y hy; cases hy
  | cons x xs ih =>
    simp only [wfB, Bool.and_eq_true, decide_eq_true_eq] at h
    intro y hy
    rcases List.mem_cons.mp hy with rfl | hy
    · exact h.1
    · exact le_trans (le_trans h.1 (base_le_stop x)) (ih h.2 y hy)

theorem wfB_tail {lo : Nat} {x : Region} {xs : List Region}
    (h : wfB lo (x :: xs) = true) : wfB x.stop xs = true := by
  simp only [wfB, Bool.and_eq_true, decide_eq_true_eq] at h
  exact h.2

/-! ### Insert-with-merge lemmas -/

theorem span_base (x r : Region) : (span x r).base = min x.base r.base := rfl

theorem span_nid (x r : Region) : (span x r).nid = r.nid := rfl

theorem span_flags (x r : Region) : (span x r).flags = r.flags := rfl

theorem span_stop (x r : Region) : (span x r).stop = max x.stop r.stop := by
  simp only [span, Region.stop]
  omega

theorem span_size_pos (x r : Region) (hr : 0 < r.size) : 0 < (span x r).size := by
  simp only [span, Region.stop]
  omega

theorem insertMerge_length_le (l : List Region) (r : Region) :
    (insertMerge l r).length ≤ l.length + 1 := by
  induction l generalizing r with
  | nil => simp [insertMerge]
  | cons x xs ih =>
    by_cases hx : x.stop < r.base
    · simp only [insertMerge, if_pos hx, List.length_cons]
      exact Nat.succ_le_succ (ih r)
    · by_cases hrx : r.stop < x.base
      · simp [insertMerge, hx, hrx]
      · simp only [insertMerge, if_neg hx, if_neg hrx, List.length_cons]
        exact le_trans (ih (span x r)) (by omega)

theorem insertMerge_separated {l : List Region} {r : Region}
    (h : ∀ y ∈ l, y.stop < r.base ∨ r.stop < y.base) :
    ∃ pre suf, l = pre ++ suf ∧ insertMerge l r = pre ++ r :: suf := by
  induction l with
  | nil => exact ⟨[], [], rfl, rfl⟩
  | cons x xs ih =>
    rcases h x (List.mem_cons_self x xs) with hx | hx
    · obtain ⟨pre, suf, h1, h2⟩ := ih (fun y hy => h y (List.mem_cons_of_mem x hy))
      refine ⟨x :: pre, suf, by simp [h1], ?_⟩
      simp [insertMerge, hx, h2]
    · have hx1 : ¬ x.stop < r.base := by
        have h1 := base_le_stop r
        have h2 := base_le_stop x
        omega
      exact ⟨[], x :: xs, rfl, by simp [insertMerge, hx1, hx]⟩

theorem insertMerge_of_length_succ {l : List Region} {r : Region}
    (h : (insertMerge l r).length = l.length + 1) :
    ∃ pre suf, l = pre ++ suf ∧ insertMerge l r = pre ++ r :: suf := by
  induction l generalizing r with
  | nil => exact ⟨[], [], rfl, rfl⟩
  | cons x xs ih =>
    by_cases hx : x.stop < r.base
    · have h' : (insertMerge xs r).length = xs.length + 1 := by
        have heq : insertMerge (x :: xs) r = x :: insertMerge xs r := by
          simp [insertMerge, hx]
        rw [heq] at h
        simpa using h
      obtain ⟨pre, suf, h1, h2⟩ := ih h'
      refine ⟨x :: pre, suf, by simp [h1], ?_⟩
      simp [insertMerge, hx, h2]
    · by_cases hrx : r.stop < x.base
      · exact ⟨[], x :: xs, rfl, by simp [insertMerge, hx, hrx]⟩
      · exfalso
        have hle := insertMerge_length_le xs (span x r)
        have heq : insertMerge (x :: xs) r = insertMerge xs (span x r) := by
          simp [insertMerge, hx, hrx]
        rw [heq] at h
        simp only [List.length_cons] at h
        omega

theorem insertMerge_structure {l : List Region} {r : Region}
    (hwf : wfB 0 l = true) (hr : 0 < r.size) :
    ∃ pre c suf, insertMerge l r = pre ++ c :: suf ∧
      (∀ x ∈ pre, x.stop < r.base) ∧
      c.base ≤ r.base ∧ r.stop ≤ c.stop ∧ c.nid = r.nid ∧ c.flags = r.flags ∧
      (∀ y ∈ suf, c.stop < y.base) := by
  induction l generalizing r with
  | nil =>
    exact ⟨[], r, [], rfl, by simp, le_refl _, le_refl _, rfl, rfl, by simp⟩
  | cons x xs ih =>
    have hwf' : wfB 0 xs = true := wfB_mono (wfB_tail hwf) (Nat.zero_le _)
    by_cases hx : x.stop < r.base
    · obtain ⟨pre, c, suf, h1, h2, h3, h4, h5, h6, h7⟩ := ih hwf' hr
      refine ⟨x :: pre, c, suf, by simp [insertMerge, hx, h1], ?_, h3, h4, h5, h6, h7⟩
      intro y hy
      rcases List.mem_cons.mp hy with rfl | hy
      · exact hx
      · exact h2 y hy
    · by_cases hrx : r.stop < x.base
      · refine ⟨[], r, x :: xs, by simp [insertMerge, hx, hrx], by simp,
          le_refl _, le_refl _, rfl, rfl, ?_⟩
        intro y hy
        rcases List.mem_cons.mp hy with rfl | hy
        · exact hrx
        · have h1 : x.stop ≤ y.base := wfB_all (wfB_tail hwf) y hy
          have h2 := base_le_stop x
          omega
      · obtain ⟨pre, c, suf, h1, h2, h3, h4, h5, h6, h7⟩ :=
          ih hwf' (span_size_pos x r hr)
        have hsb : (span x r).base = min x.base r.base := span_base x r
        have hss : (span x r).stop = max x.stop r.stop := span_stop x r
        refine ⟨pre, c, suf, by simp [insertMerge, hx, hrx, h1], ?_, ?_, ?_, ?_, ?_, h7⟩
        · intro y hy
          have := h2 y hy
          omega
        · omega
        · have h8 := base_le_stop r
          omega
        · rw [h5, span_nid]
        · rw [h6, span_flags]

theorem insertMerge_append_prefix {pre m : List Region} {r : Region}
    (h : ∀ x ∈ pre, x.stop < r.base) :
    insertMerge (pre ++ m) r = pre ++ insertMerge m r := by
  induction pre with
  | nil => rfl
  | cons x xs ih =>
    have hx := h x (List.mem_cons_self x xs)
    simp [insertMerge, hx, ih (fun y hy => h y (List.mem_cons_of_mem x hy))]

theorem insertMerge_absorbed {c : Region} {suf : List Region} {r : Region}
    (hb : c.base ≤ r.base) (he : r.stop ≤ c.stop)
    (hn : c.nid = r.nid) (hf : c.flags = r.flags) (hr : 0 < r.size)
    (hsuf : ∀ y ∈ suf, c.stop < y.base) :
    insertMerge (c :: suf) r = c :: suf := by
  have hrs := base_le_stop r
  have hcs := base_le_stop c
  have h1 : ¬ c.stop < r.base := by omega
  have h2 : ¬ r.stop < c.base := by omega
  have hspan : span c r = c := by
    have hb' : min c.base r.base = c.base := Nat.min_eq_left hb
    have he' : max c.stop r.stop = c.stop := Nat.max_eq_left he
    have hs := span_stop c r
    have hsb := span_base c r
    have hsz : (span c r).size = c.size := by
      have := stop_def (span c r)
      have := stop_def c
      omega
    cases c
    cases r
    simp only [span] at *
    simp only [Region.mk.injEq]
    refine ⟨by omega, by omega, ?_, ?_⟩
    · exact hn.symm
    · exact hf.symm
  rw [insertMerge, if_neg h1, if_neg h2, hspan]
  cases suf with
  | nil => rfl
  | cons y ys =>
    have hy := hsuf y (List.mem_cons_self y ys)
    have hys := base_le_stop y
    have hy1 : ¬ y.stop < c.base := by omega
    simp [insertMerge, hy1, hy]

theorem insertMerge_idem {l : List Region} {r : Region}
    (hwf : wfB 0 l = true) (hr : 0 < r.size) :
    insertMerge (insertMerge l r) r = insertMerge l r := by
  obtain ⟨pre, c, suf, h1, h2, h3, h4, h5, h6, h7⟩ := insertMerge_structure hwf hr
  rw [h1, insertMerge_append_prefix h2, insertMerge_absorbed h3 h4 h5 h6 hr h7]

theorem wfB_insertMerge {lo : Nat} {l : List Region} {r : Region}
    (h : wfB lo l = true) :
    wfB (min lo r.base) (insertMerge l r) = true := by
  induction l generalizing lo r with
  | nil =>
    simp [insertMerge, wfB]
  | cons x xs ih =>
    simp only [wfB, Bool.and_eq_true, decide_eq_true_eq] at h
    obtain ⟨h1, h2⟩ := h
    have hxs := base_le_stop x
    by_cases hx : x.stop < r.base
    · have hih := ih (r := r) h2
      have heq : min x.stop r.base = x.stop := Nat.min_eq_left (le_of_lt hx)
      rw [heq] at hih
      simp only [insertMerge, if_pos hx, wfB, Bool.and_eq_true, decide_eq_true_eq]
      exact ⟨by omega, hih⟩
    · by_cases hrx : r.stop < x.base
      · simp only [insertMerge, if_neg hx, if_pos hrx, wfB, Bool.and_eq_true,
          decide_eq_true_eq]
        exact ⟨by omega, by omega, h2⟩
      · have hih := ih (r := span x r) h2
        have hsb := span_base x r
        simp only [insertMerge, if_neg hx, if_neg hrx]
        exact wfB_mono hih (by omega)

/-! ### Subtract lemmas -/

theorem intersectLen_le_size (r : Region) (b e : Nat) : intersectLen r b e ≤ r.size := by
  simp only [intersectLen, Region.stop]
  omega

theorem sumSizes_append (l1 l2 : List Region) :
    sumSizes (l1 ++ l2) = sumSizes l1 + sumSizes l2 := by
  induction l1 with
  | nil => simp [sumSizes]
  | cons x xs ih =>
    show sumSizes (x :: (xs ++ l2)) = sumSizes (x :: xs) + sumSizes l2
    simp only [sumSizes, ih]
    omega

theorem sumSizes_subtractOne (r : Region) {b e : Nat} (hbe : b ≤ e) :
    sumSizes (subtractOne r b e) = r.size - intersectLen r b e := by
  by_cases h1 : e ≤ r.base ∨ r.stop ≤ b
  · rw [subtractOne, if_pos h1]
    simp only [sumSizes, intersectLen, Region.stop] at *
    omega
  · by_cases h2 : b ≤ r.base ∧ r.stop ≤ e
    · rw [subtractOne, if_neg h1, if_pos h2]
      simp only [sumSizes, intersectLen, Region.stop] at *
      omega
    · by_cases h3 : b ≤ r.base
      · rw [subtractOne, if_neg h1, if_neg h2, if_pos h3]
        simp only [sumSizes, intersectLen, Region.stop] at *
        omega
      · by_cases h4 : r.stop ≤ e
        · rw [subtractOne, if_neg h1, if_neg h2, if_neg h3, if_pos h4]
          simp only [sumSizes, intersectLen, Region.stop] at *
          omega
        · rw [subtractOne, if_neg h1, if_neg h2, if_neg h3, if_neg h4]
          simp only [sumSizes, intersectLen, Region.stop] at *
          omega

theorem sumIntersect_le (l : List Region) (b e : Nat) :
    sumIntersect l b e ≤ sumSizes l := by
  induction l with
  | nil => simp [sumIntersect, sumSizes]
  | cons r rest ih =>
    have := intersectLen_le_size r b e
    simp only [sumIntersect, sumSizes]
    omega

theorem sumSizes_subtractList (l : List Region) {b e : Nat} (hbe : b ≤ e) :
    sumSizes (subtractList l b e) = sumSizes l - sumIntersect l b e := by
  induction l with
  | nil => rfl
  | cons r rest ih =>
    have h1 := intersectLen_le_size r b e
    have h2 := sumIntersect_le rest b e
    simp only [subtractList, sumSizes, sumIntersect, sumSizes_append, ih,
      sumSizes_subtractOne r hbe]
    omega

theorem subtractOne_disjoint {r : Region} {b e : Nat} :
    ∀ y ∈ subtractOne r b e, y.stop ≤ b ∨ e ≤ y.base := by
  intro y hy
  rw [subtractOne] at hy
  by_cases h1 : e ≤ r.base ∨ r.stop ≤ b
  · rw [if_pos h1] at hy
    simp only [List.mem_singleton] at hy
    subst hy
    have := base_le_stop y
    rcases h1 with h | h
    · right; omega
    · left; exact h
  · rw [if_neg h1] at hy
    by_cases h2 : b ≤ r.base ∧ r.stop ≤ e
    · rw [if_pos h2] at hy
      cases hy
    · rw [if_neg h2] at hy
      by_cases h3 : b ≤ r.base
      · rw [if_pos h3] at hy
        simp only [List.mem_singleton] at hy
        subst hy
        right
        exact Nat.le_refl e
      · rw [if_neg h3] at hy
        by_cases h4 : r.stop ≤ e
        · rw [if_pos h4] at hy
          simp only [List.mem_singleton] at hy
          subst hy
          left
          simp only [Region.stop]
          omega
        · rw [if_neg h4] at hy
          simp only [List.mem_cons, List.not_mem_nil, or_false] at hy
          rcases hy with rfl | rfl
          · left
            simp only [Region.stop]
            omega
          · right
            exact Nat.le_refl e

theorem subtractList_disjoint {b e : Nat} :
    ∀ (l : List Region), ∀ y ∈ subtractList l b e, y.stop ≤ b ∨ e ≤ y.base := by
  intro l
  induction l with
  | nil => intro y hy; cases hy
  | cons r rest ih =>
    intro y hy
    simp only [subtractList, List.mem_append] at hy
    rcases hy with hy | hy
    · exact subtractOne_disjoint y hy
    · exact ih y hy

/-! ### Free-space search lemmas -/

theorem findFitBottom_mem {n : Nat} {l : List Region} {a : Nat}
    (h : findFitBottom n l = some a) :
    ∃ y ∈ l, y.base ≤ a ∧ a + n ≤ y.stop := by
  induction l with
  | nil => simp [findFitBottom] at h
  | cons x xs ih =>
    by_cases hx : n ≤ x.size
    · simp only [findFitBottom, if_pos hx, Option.some.injEq] at h
      subst h
      refine ⟨x, List.mem_cons_self x xs, Nat.le_refl _, ?_⟩
      simp only [Region.stop]
      omega
    · simp only [findFitBottom, if_neg hx] at h
      obtain ⟨y, hy, h1, h2⟩ := ih h
      exact ⟨y, List.mem_cons_of_mem x hy, h1, h2⟩

theorem findFitTop_mem {n : Nat} {l : List Region} {a : Nat}
    (h : findFitTop n l = some a) :
    ∃ y ∈ l, y.base ≤ a ∧ a + n ≤ y.stop := by
  induction l with
  | nil => simp [findFitTop] at h
  | cons x xs ih =>
    simp only [findFitTop] at h
    cases hxs : findFitTop n xs with
    | some a' =>
      rw [hxs] at h
      simp only [Option.some.injEq] at h
      subst h
      obtain ⟨y, hy, h1, h2⟩ := ih hxs
      exact ⟨y, List.mem_cons_of_mem x hy, h1, h2⟩
    | none =>
      rw [hxs] at h
      by_cases hx : n ≤ x.size
      · simp only [if_pos hx, Option.some.injEq] at h
        subst h
        refine ⟨x, List.mem_cons_self x xs, ?_, ?_⟩
        · simp only [Region.stop]
          omega
        · simp only [Region.stop]
          omega
      · simp [if_neg hx] at h

theorem findFit_mem {n : Nat} {bu : Bool} {l : List Region} {a : Nat}
    (h : findFit n bu l = some a) :
    ∃ y ∈ l, y.base ≤ a ∧ a + n ≤ y.stop := by
  cases bu with
  | true => exact findFitBottom_mem (by simpa [findFit] using h)
  | false => exact findFitTop_mem (by simpa [findFit] using h)

/-! ### Trim lemmas -/

theorem roundDownTo_dvd_eq {x a : Nat} (h : a ∣ x) : roundDownTo x a = x :=
  Nat.div_mul_cancel h

theorem roundUpTo_dvd_eq {x a : Nat} (ha : 0 < a) (h : a ∣ x) :
    roundUpTo x a = x := by
  obtain ⟨k, rfl⟩ := h
  simp only [roundUpTo]
  rw [Nat.add_sub_assoc (by omega : 1 ≤ a), Nat.mul_add_div ha,
    Nat.div_eq_of_lt (by omega : a - 1 < a), Nat.add_zero, Nat.mul_comm]

theorem trimList_eq_filterMap (a : Nat) (l : List Region) :
    trimList a l = l.filterMap (trimRegion a) := by
  induction l with
  | nil => rfl
  | cons r rest ih =>
    by_cases h : roundUpTo r.base a < roundDownTo r.stop a
    · simp [trimList, trimRegion, h, ih]
    · simp [trimList, trimRegion, h, ih]

theorem trimRegion_aligned {a : Nat} (ha : 0 < a) {r : Region}
    (hb : a ∣ r.base) (he : a ∣ r.stop) (hs : 0 < r.size) :
    trimRegion a r = some r := by
  have h1 : roundUpTo r.base a = r.base := roundUpTo_dvd_eq ha hb
  have h2 : roundDownTo r.stop a = r.stop := roundDownTo_dvd_eq he
  have h3 := stop_def r
  simp only [trimRegion, h1, h2]
  rw [if_pos (by omega : r.base < r.stop),
    show r.stop - r.base = r.size from by omega]

theorem trimRegion_deleted {a : Nat} {r : Region}
    (h : roundDownTo r.stop a ≤ roundUpTo r.base a) :
    trimRegion a r = none := by
  simp only [trimRegion]
  rw [if_neg (by omega)]

theorem trimList_length (a : Nat) (l : List Region) :
    (trimList a l).length =
      l.countP (fun r => decide (roundUpTo r.base a < roundDownTo r.stop a)) := by
  induction l with
  | nil => rfl
  | cons r rest ih =>
    by_cases h : roundUpTo r.base a < roundDownTo r.stop a
    · simp [trimList, h, ih, List.countP_cons]
    · simp [trimList, h, ih, List.countP_cons]

/-! ### Node-tagging lemmas -/

theorem sumSizes_setNodeOne (nid : Int) {b e : Nat} (hbe : b ≤ e) (r : Region) :
    sumSizes (setNodeOne nid b e r) = r.size := by
  rw [setNodeOne]
  by_cases h1 : e ≤ r.base ∨ r.stop ≤ b
  · rw [if_pos h1]
    simp [sumSizes]
  · rw [if_neg h1]
    by_cases h2 : r.nid = nid
    · rw [if_pos h2]
      simp [sumSizes]
    · rw [if_neg h2]
      by_cases h3 : r.base < b
      · by_cases h4 : e < r.stop
        · rw [if_pos h3, if_pos h4]
          simp only [sumSizes_append, sumSizes, List.cons_append,
            List.nil_append, List.singleton_append]
          simp only [Region.stop] at *
          omega
        · rw [if_pos h3, if_neg h4]
          simp only [sumSizes_append, sumSizes, List.cons_append,
            List.nil_append, List.append_nil, List.singleton_append]
          simp only [Region.stop] at *
          omega
      · by_cases h4 : e < r.stop
        · rw [if_neg h3, if_pos h4]
          simp only [sumSizes_append, sumSizes, List.cons_append,
            List.nil_append, List.singleton_append]
          simp only [Region.stop] at *
          omega
        · rw [if_neg h3, if_neg h4]
          simp only [sumSizes_append, sumSizes, List.cons_append,
            List.nil_append, List.append_nil, List.singleton_append]
          simp only [Region.stop] at *
          omega

theorem sumSizes_setNodeList (nid : Int) {b e : Nat} (hbe : b ≤ e) (l : List Region) :
    sumSizes (setNodeList nid b e l) = sumSizes l := by
  induction l with
  | nil => rfl
  | cons r rest ih =>
    simp only [setNodeList, sumSizes_append, sumSizes, ih,
      sumSizes_setNodeOne nid hbe]

/-! ### Collection-selector lemmas -/

theorem getType_setType_same (mb : Memblock) (t : MType) (c : MemblockType) :
    getType (setType mb t c) t = c := by
  cases t <;> rfl

theorem setType_setType (mb : Memblock) (t : MType) (c1 c2 : MemblockType) :
    setType (setType mb t c1) t c2 = setType mb t c2 := by
  cases t <;> rfl

theorem setType_memory_of_reserved (mb : Memblock) (c : MemblockType) :
    (setType mb .reserved c).memory = mb.memory := rfl

theorem setType_reserved_of_memory (mb : Memblock) (c : MemblockType) :
    (setType mb .memory c).reserved = mb.reserved := rfl

theorem setType_bottom_up (mb : Memblock) (t : MType) (c : MemblockType) :
    (setType mb t c).bottom_up = mb.bottom_up := by
  cases t <;> rfl

/-! ### Disjoint-range no-op lemmas -/

theorem subtractList_of_disjoint {b e : Nat} :
    ∀ (l : List Region), (∀ r ∈ l, e ≤ r.base ∨ r.stop ≤ b) →
      subtractList l b e = l := by
  intro l
  induction l with
  | nil => intro _; rfl
  | cons r rest ih =>
    intro h
    show subtractOne r b e ++ subtractList rest b e = r :: rest
    rw [subtractOne, if_pos (h r (List.mem_cons_self r rest)),
      ih (fun y hy => h y (List.mem_cons_of_mem r hy))]
    rfl

theorem intersectLen_of_disjoint {r : Region} {b e : Nat}
    (h : e ≤ r.base ∨ r.stop ≤ b) : intersectLen r b e = 0 := by
  have := stop_def r
  simp only [intersectLen, Region.stop]
  omega

theorem sumIntersect_of_disjoint {b e : Nat} :
    ∀ (l : List Region), (∀ r ∈ l, e ≤ r.base ∨ r.stop ≤ b) →
      sumIntersect l b e = 0 := by
  intro l
  induction l with
  | nil => intro _; rfl
  | cons r rest ih =>
    intro h
    show intersectLen r b e + sumIntersect rest b e = 0
    rw [intersectLen_of_disjoint (h r (List.mem_cons_self r rest)),
      ih (fun y hy => h y (List.mem_cons_of_mem r hy))]

theorem subtractList_append (l1 l2 : List Region) (b e : Nat) :
    subtractList (l1 ++ l2) b e = subtractList l1 b e ++ subtractList l2 b e := by
  induction l1 with
  | nil => rfl
  | cons r rest ih =>
    show subtractOne r b e ++ subtractList (rest ++ l2) b e = _
    rw [ih]
    show _ = (subtractOne r b e ++ subtractList rest b e) ++ subtractList l2 b e
    rw [List.append_assoc]

/-! ### Claim C10: initialization state -/

/-- C10: at initialization, before any operation, both collections are in the
fixed known state: count 0, capacity 128, names "memory" and "reserved", the
bottom-up policy off (top-down) and the allocation limit unrestricted; the
backing arrays are the static ones (no relocated storage yet). -/
theorem claim_C10_initialization :
    memblockInit.memory.cnt = 0 ∧
    memblockInit.memory.max = 128 ∧
    memblockInit.memory.name = "memory" ∧
    memblockInit.memory.storage = none ∧
    memblockInit.reserved.cnt = 0 ∧
    memblockInit.reserved.max = 128 ∧
    memblockInit.reserved.name = "reserved" ∧
    memblockInit.reserved.storage = none ∧
    memblockInit.bottom_up = false ∧
    memblockInit.current_limit = memblockAllocAnywhere :=
  ⟨rfl, rfl, rfl, rfl, rfl, rfl, rfl, rfl, rfl, rfl⟩

/-! ### Claim C7: removing an absent range is a silent no-op -/

/-- C7: removing (or freeing) a range that overlaps no region of the
collection being operated on is not an error and leaves the regions array,
the counter and `total_size` exactly unchanged; each operation only needs
the range absent from its own collection. -/
theorem claim_C7_remove_absent (mb : Memblock) (b s : Nat) :
    ((∀ r ∈ mb.memory.regions,
        b + memblock_cap_size b s ≤ r.base ∨ r.stop ≤ b) →
      memblock_remove mb b s = mb) ∧
    ((∀ r ∈ mb.reserved.regions,
        b + memblock_cap_size b s ≤ r.base ∨ r.stop ≤ b) →
      memblock_free mb b s = mb) := by
  constructor
  · intro hmem
    show { mb with memory := memblock_remove_range mb.memory b s } = mb
    rw [memblock_remove_range, subtractList_of_disjoint _ hmem,
      sumIntersect_of_disjoint _ hmem, Nat.sub_zero]
  · intro hres
    show { mb with reserved := memblock_remove_range mb.reserved b s } = mb
    rw [memblock_remove_range, subtractList_of_disjoint _ hres,
      sumIntersect_of_disjoint _ hres, Nat.sub_zero]

theorem claim_C7_remove_absent_witness :
    ((∀ r ∈ growDemo.memory.regions,
        65536 + memblock_cap_size 65536 64 ≤ r.base ∨ r.stop ≤ 65536) ∧
      memblock_remove growDemo 65536 64 = growDemo) ∧
    ((∀ r ∈ growDemo.reserved.regions,
        4096 + memblock_cap_size 4096 64 ≤ r.base ∨ r.stop ≤ 4096) ∧
      memblock_free growDemo 4096 64 = growDemo) :=
  ⟨⟨by decide, (claim_C7_remove_absent growDemo 65536 64).1 (by decide)⟩,
    ⟨by decide, (claim_C7_remove_absent growDemo 4096 64).2 (by decide)⟩⟩

/-! ### Claim C8: the overlap query -/

/-- C8: the overlap query returns true exactly when the queried range
`[base, base+size)` has a non-zero-length intersection with some region;
ranges sharing only a boundary point report no overlap. -/
theorem claim_C8_overlap_query (c : MemblockType) (b s : Nat)
    (hs : 0 < s) (hmax : b + s ≤ physAddrMax)
    (hpos : ∀ r ∈ c.regions, 0 < r.size) :
    memblock_overlaps_region c b s = true ↔
      ∃ r ∈ c.regions, max b r.base < min (b + s) r.stop := by
  have hb : b < physAddrMax := by omega
  have hcap : memblock_cap_size b s = s := by
    simp only [memblock_cap_size]
    omega
  simp only [memblock_overlaps_region, hcap, List.any_eq_true, decide_eq_true_eq]
  constructor
  · rintro ⟨r, hr, h1, h2⟩
    refine ⟨r, hr, ?_⟩
    have h3 := hpos r hr
    have h4 := stop_def r
    omega
  · rintro ⟨r, hr, h⟩
    exact ⟨r, hr, by omega, by omega⟩

theorem claim_C8_overlap_query_witness :
    (0 < 10 ∧ 10 + 10 ≤ physAddrMax ∧ (∀ r ∈ overlapDemo.regions, 0 < r.size) ∧
      (memblock_overlaps_region overlapDemo 10 10 = true ↔
        ∃ r ∈ overlapDemo.regions, max 10 r.base < min (10 + 10) r.stop)) ∧
    (memblock_overlaps_region overlapDemo 10 10 = false ∧
      memblock_overlaps_region overlapDemo 5 10 = true) :=
  ⟨⟨by decide, by decide, by decide,
      claim_C8_overlap_query overlapDemo 10 10 (by decide) (by decide) (by decide)⟩,
    by decide, by decide⟩

/-! ### Claim C9: the trim pass -/

/-- C9: `trim(A)` maps each region to the interval with base rounded up to
`A` and end rounded down to `A`: kept (replaced in place) exactly when that
interval has positive length, with a both-ends-aligned region left exactly
unchanged, and deleted (count decreases) when the aligned interval is empty. -/
theorem claim_C9_trim (mb : Memblock) (a : Nat) (ha : 0 < a) :
    (memblock_trim_memory mb a).memory.regions =
      mb.memory.regions.filterMap (trimRegion a) ∧
    (memblock_trim_memory mb a).memory.cnt =
      mb.memory.regions.countP
        (fun r => decide (roundUpTo r.base a < roundDownTo r.stop a)) ∧
    (∀ r : Region, a ∣ r.base → a ∣ r.stop → 0 < r.size →
      trimRegion a r = some r) ∧
    (∀ r : Region, roundDownTo r.stop a ≤ roundUpTo r.base a →
      trimRegion a r = none) ∧
    (∀ r : Region, roundUpTo r.base a < roundDownTo r.stop a →
      trimRegion a r = some { r with
        base := roundUpTo r.base a,
        size := roundDownTo r.stop a - roundUpTo r.base a }) := by
  refine ⟨?_, ?_, ?_, ?_, ?_⟩
  · show trimList a mb.memory.regions = _
    exact trimList_eq_filterMap a mb.memory.regions
  · show (trimList a mb.memory.regions).length = _
    exact trimList_length a mb.memory.regions
  · intro r hb he hsz
    exact trimRegion_aligned ha hb he hsz
  · intro r h
    exact trimRegion_deleted h
  · intro r h
    rw [trimRegion, if_pos h]

theorem claim_C9_trim_witness :
    (0 < 64 ∧
      ((memblock_trim_memory trimDemo 64).memory.regions =
        trimDemo.memory.regions.filterMap (trimRegion 64) ∧
      (memblock_trim_memory trimDemo 64).memory.cnt =
        trimDemo.memory.regions.countP
          (fun r => decide (roundUpTo r.base 64 < roundDownTo r.stop 64)) ∧
      (∀ r : Region, 64 ∣ r.base → 64 ∣ r.stop → 0 < r.size →
        trimRegion 64 r = some r) ∧
      (∀ r : Region, roundDownTo r.stop 64 ≤ roundUpTo r.base 64 →
        trimRegion 64 r = none) ∧
      (∀ r : Region, roundUpTo r.base 64 < roundDownTo r.stop 64 →
        trimRegion 64 r = some { r with
          base := roundUpTo r.base 64,
          size := roundDownTo r.stop 64 - roundUpTo r.base 64 }))) ∧
    (memblock_trim_memory trimDemo 64).memory.regions =
      [⟨64, 128, numaNoNode, 0⟩] ∧
    (memblock_trim_memory trimDemo 64).memory.cnt = 1 :=
  ⟨⟨by decide, claim_C9_trim trimDemo 64 (by decide)⟩, by decide, by decide⟩

/-! ### Claim C4: strictly interior cut splits a region in two -/

theorem wfB_append_middle {lo : Nat} {pre : List Region} {R : Region}
    {suf : List Region} (h : wfB lo (pre ++ R :: suf) = true) :
    (∀ x ∈ pre, x.stop ≤ R.base) ∧ wfB R.stop suf = true := by
  induction pre generalizing lo with
  | nil =>
    refine ⟨by simp, ?_⟩
    exact wfB_tail (by simpa using h)
  | cons x xs ih =>
    have h2 : wfB x.stop (xs ++ R :: suf) = true := wfB_tail h
    obtain ⟨ha, hb⟩ := ih h2
    refine ⟨?_, hb⟩
    intro y hy
    rcases List.mem_cons.mp hy with rfl | hy
    · exact wfB_all h2 R (by simp)
    · exact ha y hy

theorem subtractList_interior_split {pre suf : List Region} {R : Region}
    {b e : Nat} (hwf : wfB 0 (pre ++ R :: suf) = true)
    (h1 : R.base < b) (h2 : e < R.stop) (h3 : b < e) :
    subtractList (pre ++ R :: suf) b e =
      pre ++ { R with size := b - R.base } ::
        { R with base := e, size := R.stop - e } :: suf := by
  obtain ⟨hpre, hsuf⟩ := wfB_append_middle hwf
  have hR : subtractOne R b e =
      [{ R with size := b - R.base }, { R with base := e, size := R.stop - e }] := by
    rw [subtractOne, if_neg (by omega), if_neg (by omega), if_neg (by omega),
      if_neg (by omega)]
  have hprefix : subtractList pre b e = pre :=
    subtractList_of_disjoint pre (fun x hx => Or.inr (by
      have := hpre x hx
      omega))
  have hsuffix : subtractList suf b e = suf :=
    subtractList_of_disjoint suf (fun y hy => Or.inl (by
      have := wfB_all hsuf y hy
      omega))
  rw [subtractList_append, hprefix]
  show _ ++ (subtractOne R b e ++ subtractList suf b e) = _
  rw [hR, hsuffix]
  rfl

/-- C4: a removed range strictly inside one region splits it into the head
`[old_base, cut_base)` and the tail `[cut_end, old_end)` placed right after
it, increasing the count by one, with the two sizes summing to the old size
minus the cut; this holds for remove on the available collection and free on
the claimed collection. -/
theorem claim_C4_interior_split :
    (∀ (mb : Memblock) (pre suf : List Region) (R : Region) (b s : Nat),
      mb.memory.regions = pre ++ R :: suf →
      wfB 0 mb.memory.regions = true →
      R.base < b → b + s < R.stop → 0 < s → R.stop ≤ physAddrMax →
      (memblock_remove mb b s).memory.regions =
        pre ++ { R with size := b - R.base } ::
          { R with base := b + s, size := R.stop - (b + s) } :: suf ∧
      (memblock_remove mb b s).memory.cnt = mb.memory.cnt + 1 ∧
      (b - R.base) + (R.stop - (b + s)) = R.size - s) ∧
    (∀ (mb : Memblock) (pre suf : List Region) (R : Region) (b s : Nat),
      mb.reserved.regions = pre ++ R :: suf →
      wfB 0 mb.reserved.regions = true →
      R.base < b → b + s < R.stop → 0 < s → R.stop ≤ physAddrMax →
      (memblock_free mb b s).reserved.regions =
        pre ++ { R with size := b - R.base } ::
          { R with base := b + s, size := R.stop - (b + s) } :: suf ∧
      (memblock_free mb b s).reserved.cnt = mb.reserved.cnt + 1 ∧
      (b - R.base) + (R.stop - (b + s)) = R.size - s) := by
  constructor
  all_goals {
    intro mb pre suf R b s hregs hwf hb hbe hs hmax
    have hstop := stop_def R
    have hcap : memblock_cap_size b s = s := by
      simp only [memblock_cap_size]
      omega
    have hsplit := subtractList_interior_split (hregs ▸ hwf) hb
      (show b + s < R.stop by omega) (show b < b + s by omega)
    refine ⟨?_, ?_, by omega⟩
    · show subtractList _ b (b + memblock_cap_size b s) = _
      rw [hcap, hregs, hsplit]
    · show (subtractList _ b (b + memblock_cap_size b s)).length = _
      rw [hcap, hregs, hsplit, MemblockType.cnt, hregs]
      simp only [List.length_append, List.length_cons]
      omega
  }

theorem claim_C4_interior_split_witness :
    (splitDemo.memory.regions =
        [] ++ (⟨1048576, 33554432, numaNoNode, 0⟩ : Region) :: [] ∧
      wfB 0 splitDemo.memory.regions = true ∧
      (1048576 : Nat) < 16777216 ∧ 16777216 + 1048576 < (33554432 + 1048576 : Nat) ∧
      ((memblock_remove splitDemo 16777216 1048576).memory.regions =
        [] ++ ({ base := 1048576, size := 16777216 - 1048576, nid := numaNoNode,
                 flags := 0 } : Region) ::
          ({ base := 16777216 + 1048576,
             size := (1048576 + 33554432) - (16777216 + 1048576), nid := numaNoNode,
             flags := 0 } : Region) :: [] ∧
        (memblock_remove splitDemo 16777216 1048576).memory.cnt =
          splitDemo.memory.cnt + 1 ∧
        (16777216 - 1048576) + ((1048576 + 33554432) - (16777216 + 1048576)) =
          33554432 - 1048576)) ∧
    ((memblock_free splitDemo 4194304 1048576).reserved.regions =
        [] ++ ({ base := 1048576, size := 4194304 - 1048576, nid := numaNoNode,
                 flags := 0 } : Region) ::
          ({ base := 4194304 + 1048576,
             size := (1048576 + 8388608) - (4194304 + 1048576), nid := numaNoNode,
             flags := 0 } : Region) :: [] ∧
      (memblock_free splitDemo 4194304 1048576).reserved.cnt =
        splitDemo.reserved.cnt + 1 ∧
      (4194304 - 1048576) + ((1048576 + 8388608) - (4194304 + 1048576)) =
        8388608 - 1048576) := by
  refine ⟨⟨by decide, by decide, by decide, by decide, ?_⟩, ?_⟩
  · exact claim_C4_interior_split.1 splitDemo [] []
      ⟨1048576, 33554432, numaNoNode, 0⟩ 16777216 1048576
      (by decide) (by decide) (by decide) (by decide) (by decide) (by decide)
  · exact claim_C4_interior_split.2 splitDemo [] []
      ⟨1048576, 8388608, numaNoNode, 0⟩ 4194304 1048576
      (by decide) (by decide) (by decide) (by decide) (by decide) (by decide)

/-! ### Claim C5: saturation at the maximum representable address -/

/-- C5: an add or reserve whose end would exceed the maximum representable
address stores a clamped region, not a wrapped one: the stored region keeps
the requested base and its size is exactly `physAddrMax - base`, ending at
the maximum, with `total_size` reflecting the clamped size. -/
theorem claim_C5_saturation (b s : Nat) (h1 : b < physAddrMax)
    (h2 : physAddrMax < b + s) :
    memblock_add memblockInit b s =
      some { memblockInit with memory :=
        { memblockInit.memory with
            regions := [⟨b, physAddrMax - b, numaNoNode, 0⟩]
            total_size := physAddrMax - b } } ∧
    memblock_reserve memblockInit b s =
      some { memblockInit with reserved :=
        { memblockInit.reserved with
            regions := [⟨b, physAddrMax - b, numaNoNode, 0⟩]
            total_size := physAddrMax - b } } := by
  have hcap : memblock_cap_size b s = physAddrMax - b := by
    simp only [memblock_cap_size]
    omega
  have hne : ¬ (physAddrMax - b = 0) := by omega
  constructor
  · simp only [memblock_add, memblock_add_range, hcap, if_neg hne, memblockInit,
      getType, setType, insertMerge, sumSizes, List.length_singleton]
    norm_num
  · simp only [memblock_reserve, memblock_add_range, hcap, if_neg hne, memblockInit,
      getType, setType, insertMerge, sumSizes, List.length_singleton]
    norm_num

theorem claim_C5_saturation_witness :
    (physAddrMax - 1048576 < physAddrMax) ∧
    (physAddrMax < (physAddrMax - 1048576) + 2097152) ∧
    (memblock_add memblockInit (physAddrMax - 1048576) 2097152 =
      some { memblockInit with memory :=
        { memblockInit.memory with
            regions := [⟨physAddrMax - 1048576,
              physAddrMax - (physAddrMax - 1048576), numaNoNode, 0⟩]
            total_size := physAddrMax - (physAddrMax - 1048576) } } ∧
    memblock_reserve memblockInit (physAddrMax - 1048576) 2097152 =
      some { memblockInit with reserved :=
        { memblockInit.reserved with
            regions := [⟨physAddrMax - 1048576,
              physAddrMax - (physAddrMax - 1048576), numaNoNode, 0⟩]
            total_size := physAddrMax - (physAddrMax - 1048576) } }) :=
  ⟨by decide, by decide,
    claim_C5_saturation (physAddrMax - 1048576) 2097152 (by decide) (by decide)⟩

/-! ### Claim C3: the total-size bookkeeping invariant -/

theorem TotalOK_double_array {mb : Memblock} {t : MType} {b e : Nat}
    {mb2 : Memblock} (hm : TotalOK mb.memory) (_hr : TotalOK mb.reserved)
    (h : memblock_double_array mb t b e = some mb2) :
    TotalOK mb2.memory ∧ TotalOK mb2.reserved := by
  cases t with
  | memory =>
    simp only [memblock_double_array, getType, setType] at h
    split at h
    · cases h
    · split at h
      · injection h with h
        subst h
        exact ⟨hm, rfl⟩
      · cases h
  | reserved =>
    simp only [memblock_double_array, getType, setType] at h
    split at h
    · cases h
    · split at h
      · injection h with h
        subst h
        exact ⟨hm, rfl⟩
      · cases h

theorem TotalOK_add_range {mb : Memblock} {t : MType} {b s : Nat} {nid : Int}
    {fl : Nat} {mb' : Memblock} (hm : TotalOK mb.memory) (hr : TotalOK mb.reserved)
    (h : memblock_add_range mb t b s nid fl = some mb') :
    TotalOK mb'.memory ∧ TotalOK mb'.reserved := by
  simp only [memblock_add_range] at h
  split at h
  · injection h with h
    subst h
    exact ⟨hm, hr⟩
  · split at h
    · injection h with h
      subst h
      cases t
      · exact ⟨rfl, hr⟩
      · exact ⟨hm, rfl⟩
    · split at h
      · cases h
      · next mb2 hd =>
        obtain ⟨h2m, h2r⟩ := TotalOK_double_array hm hr hd
        split at h
        · injection h with h
          subst h
          cases t
          · exact ⟨rfl, h2r⟩
          · exact ⟨h2m, rfl⟩
        · cases h

theorem TotalOK_remove_range {c : MemblockType} (hc : TotalOK c) (b s : Nat) :
    TotalOK (memblock_remove_range c b s) := by
  show (memblock_remove_range c b s).total_size =
    sumSizes (memblock_remove_range c b s).regions
  show c.total_size - sumIntersect c.regions b (b + memblock_cap_size b s) =
    sumSizes (subtractList c.regions b (b + memblock_cap_size b s))
  rw [sumSizes_subtractList c.regions
    (Nat.le_add_right b (memblock_cap_size b s)), hc]

theorem TotalOK_set_node {mb : Memblock} {b s : Nat} {t : MType} {nid : Int}
    {mb' : Memblock} (hm : TotalOK mb.memory) (hr : TotalOK mb.reserved)
    (h : memblock_set_node mb b s t nid = some mb') :
    TotalOK mb'.memory ∧ TotalOK mb'.reserved := by
  have hbe : b ≤ b + memblock_cap_size b s := Nat.le_add_right _ _
  simp only [memblock_set_node] at h
  split at h
  · injection h with h
    subst h
    cases t
    · refine ⟨?_, hr⟩
      show mb.memory.total_size = sumSizes
        (setNodeList nid b (b + memblock_cap_size b s) mb.memory.regions)
      rw [sumSizes_setNodeList nid hbe]
      exact hm
    · refine ⟨hm, ?_⟩
      show mb.reserved.total_size = sumSizes
        (setNodeList nid b (b + memblock_cap_size b s) mb.reserved.regions)
      rw [sumSizes_setNodeList nid hbe]
      exact hr
  · split at h
    · cases h
    · next mb2 hd =>
      obtain ⟨h2m, h2r⟩ := TotalOK_double_array hm hr hd
      split at h
      · injection h with h
        subst h
        cases t
        · refine ⟨?_, h2r⟩
          show mb2.memory.total_size = sumSizes
            (setNodeList nid b (b + memblock_cap_size b s) mb2.memory.regions)
          rw [sumSizes_setNodeList nid hbe]
          exact h2m
        · refine ⟨h2m, ?_⟩
          show mb2.reserved.total_size = sumSizes
            (setNodeList nid b (b + memblock_cap_size b s) mb2.reserved.regions)
          rw [sumSizes_setNodeList nid hbe]
          exact h2r
      · cases h

/-- C3: after every completed operation of the mutating interface (add,
add with node, reserve, remove, free, trim, set-node, each including any
transparent growth it triggers), both collections' `total_size` fields equal
the sum of their region sizes. -/
theorem claim_C3_total_size_invariant (mb : Memblock) (op : MemblockOp)
    (mb' : Memblock) (hm : TotalOK mb.memory) (hr : TotalOK mb.reserved)
    (h : applyOp mb op = some mb') :
    TotalOK mb'.memory ∧ TotalOK mb'.reserved := by
  cases op with
  | add b s => exact TotalOK_add_range hm hr h
  | addNode b s nid fl => exact TotalOK_add_range hm hr h
  | reserve b s => exact TotalOK_add_range hm hr h
  | remove b s =>
    injection h with h
    subst h
    exact ⟨TotalOK_remove_range hm b s, hr⟩
  | free b s =>
    injection h with h
    subst h
    exact ⟨hm, TotalOK_remove_range hr b s⟩
  | trim a =>
    injection h with h
    subst h
    exact ⟨rfl, hr⟩
  | setNode b s t nid => exact TotalOK_set_node hm hr h

theorem claim_C3_total_size_invariant_witness :
    TotalOK splitDemo.memory ∧ TotalOK splitDemo.reserved ∧
    applyOp splitDemo (.remove 16777216 1048576) =
      some (memblock_remove splitDemo 16777216 1048576) ∧
    (TotalOK (memblock_remove splitDemo 16777216 1048576).memory ∧
      TotalOK (memblock_remove splitDemo 16777216 1048576).reserved) :=
  ⟨rfl, rfl, rfl,
    claim_C3_total_size_invariant splitDemo (.remove 16777216 1048576) _
      rfl rfl rfl⟩

/-! ### Claim C6: double insertion is idempotent -/

theorem memblock_add_range_nop {mb : Memblock} {t : MType} {b s : Nat}
    {nid : Int} {fl : Nat} (h : memblock_cap_size b s = 0) :
    memblock_add_range mb t b s nid fl = some mb := by
  simp only [memblock_add_range, if_pos h]

theorem memblock_add_range_fits {mb : Memblock} {t : MType} {b s : Nat}
    {nid : Int} {fl : Nat} (h : ¬ memblock_cap_size b s = 0)
    (hfit : (insertMerge (getType mb t).regions
      ⟨b, memblock_cap_size b s, nid, fl⟩).length ≤ (getType mb t).max) :
    memblock_add_range mb t b s nid fl = some (setType mb t
      { getType mb t with
        regions := insertMerge (getType mb t).regions
          ⟨b, memblock_cap_size b s, nid, fl⟩
        total_size := sumSizes (insertMerge (getType mb t).regions
          ⟨b, memblock_cap_size b s, nid, fl⟩) }) := by
  simp only [memblock_add_range, if_neg h, if_pos hfit]

theorem double_array_getType_wf {mb : Memblock} {t : MType} {b e : Nat}
    {mb2 : Memblock} (h : memblock_double_array mb t b e = some mb2)
    (hwf : wfB 0 (getType mb t).regions = true) :
    wfB 0 (getType mb2 t).regions = true := by
  cases t with
  | memory =>
    simp only [memblock_double_array, getType, setType] at h hwf ⊢
    split at h
    · cases h
    · split at h
      · injection h with h
        subst h
        exact hwf
      · cases h
  | reserved =>
    simp only [memblock_double_array, getType, setType] at h hwf ⊢
    split at h
    · cases h
    · split at h
      · injection h with h
        subst h
        exact wfB_mono (wfB_insertMerge hwf) (Nat.zero_le _)
      · cases h

theorem memblock_add_range_idem (mb : Memblock) (t : MType) (b s : Nat)
    (nid : Int) (fl : Nat) (hwf : wfB 0 (getType mb t).regions = true) :
    (memblock_add_range mb t b s nid fl).bind
      (fun m => memblock_add_range m t b s nid fl) =
      memblock_add_range mb t b s nid fl := by
  by_cases hs : memblock_cap_size b s = 0
  · rw [memblock_add_range_nop hs]
    show memblock_add_range mb t b s nid fl = some mb
    exact memblock_add_range_nop hs
  · have hpos : 0 < memblock_cap_size b s := Nat.pos_of_ne_zero hs
    by_cases hfit : (insertMerge (getType mb t).regions
        ⟨b, memblock_cap_size b s, nid, fl⟩).length ≤ (getType mb t).max
    · rw [memblock_add_range_fits hs hfit]
      show memblock_add_range _ t b s nid fl = _
      rw [memblock_add_range_fits hs (by
        rw [getType_setType_same]
        show (insertMerge (insertMerge (getType mb t).regions
          ⟨b, memblock_cap_size b s, nid, fl⟩)
          ⟨b, memblock_cap_size b s, nid, fl⟩).length ≤ (getType mb t).max
        rw [insertMerge_idem hwf hpos]
        exact hfit)]
      rw [setType_setType, getType_setType_same]
      show some (setType mb t
        { getType mb t with
          regions := insertMerge (insertMerge (getType mb t).regions
            ⟨b, memblock_cap_size b s, nid, fl⟩)
            ⟨b, memblock_cap_size b s, nid, fl⟩
          total_size := sumSizes (insertMerge (insertMerge (getType mb t).regions
            ⟨b, memblock_cap_size b s, nid, fl⟩)
            ⟨b, memblock_cap_size b s, nid, fl⟩) }) = _
      rw [insertMerge_idem hwf hpos]
    · cases hd : memblock_double_array mb t b (b + memblock_cap_size b s) with
      | none =>
        have h1 : memblock_add_range mb t b s nid fl = none := by
          simp only [memblock_add_range, if_neg hs, if_neg hfit, hd]
        rw [h1]
        rfl
      | some mb2 =>
        have hwf2 : wfB 0 (getType mb2 t).regions = true :=
          double_array_getType_wf hd hwf
        by_cases hfit2 : (insertMerge (getType mb2 t).regions
            ⟨b, memblock_cap_size b s, nid, fl⟩).length ≤ (getType mb2 t).max
        · have h1 : memblock_add_range mb t b s nid fl = some (setType mb2 t
              { getType mb2 t with
                regions := insertMerge (getType mb2 t).regions
                  ⟨b, memblock_cap_size b s, nid, fl⟩
                total_size := sumSizes (insertMerge (getType mb2 t).regions
                  ⟨b, memblock_cap_size b s, nid, fl⟩) }) := by
            simp only [memblock_add_range, if_neg hs, if_neg hfit, hd, if_pos hfit2]
          rw [h1]
          show memblock_add_range _ t b s nid fl = _
          rw [memblock_add_range_fits hs (by
            rw [getType_setType_same]
            show (insertMerge (insertMerge (getType mb2 t).regions
              ⟨b, memblock_cap_size b s, nid, fl⟩)
              ⟨b, memblock_cap_size b s, nid, fl⟩).length ≤ (getType mb2 t).max
            rw [insertMerge_idem hwf2 hpos]
            exact hfit2)]
          rw [setType_setType, getType_setType_same]
          show some (setType mb2 t
            { getType mb2 t with
              regions := insertMerge (insertMerge (getType mb2 t).regions
                ⟨b, memblock_cap_size b s, nid, fl⟩)
                ⟨b, memblock_cap_size b s, nid, fl⟩
              total_size := sumSizes (insertMerge (insertMerge
                (getType mb2 t).regions
                ⟨b, memblock_cap_size b s, nid, fl⟩)
                ⟨b, memblock_cap_size b s, nid, fl⟩) }) = _
          rw [insertMerge_idem hwf2 hpos]
        · have h1 : memblock_add_range mb t b s nid fl = none := by
            simp only [memblock_add_range, if_neg hs, if_neg hfit, hd, if_neg hfit2]
          rw [h1]
          rfl

/-- C6: performing the same add (or reserve) twice yields exactly the same
allocator state as performing it once, for every well-formed collection
state: the second identical insertion changes nothing. -/
theorem claim_C6_insert_idempotent :
    (∀ (mb : Memblock) (b s : Nat), wfB 0 mb.memory.regions = true →
      (memblock_add mb b s).bind (fun m => memblock_add m b s) =
        memblock_add mb b s) ∧
    (∀ (mb : Memblock) (b s : Nat), wfB 0 mb.reserved.regions = true →
      (memblock_reserve mb b s).bind (fun m => memblock_reserve m b s) =
        memblock_reserve mb b s) := by
  constructor
  · intro mb b s h
    exact memblock_add_range_idem mb .memory b s numaNoNode 0 h
  · intro mb b s h
    exact memblock_add_range_idem mb .reserved b s numaNoNode 0 h

theorem claim_C6_insert_idempotent_witness :
    (wfB 0 absentDemo.memory.regions = true ∧
      (memblock_add absentDemo 16384 2097152).bind
        (fun m => memblock_add m 16384 2097152) =
        memblock_add absentDemo 16384 2097152) ∧
    (wfB 0 absentDemo.reserved.regions = true ∧
      (memblock_reserve absentDemo 16384 2097152).bind
        (fun m => memblock_reserve m 16384 2097152) =
        memblock_reserve absentDemo 16384 2097152) :=
  ⟨⟨by decide, claim_C6_insert_idempotent.1 absentDemo 16384 2097152 (by decide)⟩,
    ⟨by decide, claim_C6_insert_idempotent.2 absentDemo 16384 2097152 (by decide)⟩⟩

/-! ### Claim C2: the grower's placement never overlaps the triggering range -/

theorem freeForGrow_disjoint {mb : Memblock} {t : MType} {b e : Nat} :
    ∀ y ∈ freeForGrow mb t b e, y.stop ≤ b ∨ e ≤ y.base := by
  intro y hy
  exact subtractList_disjoint _ y hy

/-- C2: whenever growth is triggered by a reserve operation, the free range
chosen for the new backing storage never overlaps the clamped range being
reserved by the triggering operation, whatever the state of the collections. -/
theorem claim_C2_growth_nonconflict (mb : Memblock) (b s : Nat) (mb' : Memblock)
    (h : memblock_reserve mb b s = some mb')
    (hgrew : mb.reserved.max < mb'.reserved.max) :
    ∀ a n, mb'.reserved.storage = some (a, n) →
      a + n ≤ b ∨ b + memblock_cap_size b s ≤ a := by
  intro a n hst
  simp only [memblock_reserve, memblock_add_range, getType, setType] at h
  split at h
  · injection h with h
    subst h
    omega
  · split at h
    · injection h with h
      subst h
      simp only at hgrew
      omega
    · split at h
      · cases h
      · next mb2 hd =>
        split at h
        · injection h with h
          subst h
          simp only at hst
          simp only [memblock_double_array, getType, setType] at hd
          split at hd
          · cases hd
          · next addr hf =>
            split at hd
            · injection hd with hd
              subst hd
              simp only at hst
              simp only [Option.some.injEq, Prod.mk.injEq] at hst
              obtain ⟨rfl, rfl⟩ := hst
              obtain ⟨y, hy, hy1, hy2⟩ := findFit_mem hf
              rcases freeForGrow_disjoint y hy with hdis | hdis
              · left
                omega
              · right
                omega
            · cases hd
        · cases h

theorem claim_C2_growth_nonconflict_witness :
    (memblock_reserve growDemo 8192 64 = some growDemoAfter ∧
      growDemo.reserved.max < growDemoAfter.reserved.max ∧
      growDemoAfter.reserved.storage = some (4096, 4096)) ∧
    (4096 + 4096 ≤ 8192 ∨ 8192 + memblock_cap_size 8192 64 ≤ 4096) :=
  ⟨⟨by decide, by decide, by decide⟩,
    claim_C2_growth_nonconflict growDemo 8192 64 growDemoAfter
      (by decide) (by decide) 4096 4096 (by decide)⟩

/-! ### Claim C1: transparent growth preserves all state -/

theorem add_growth_spec (mb : Memblock) (b s : Nat) (nid : Int) (fl : Nat)
    (addr : Nat)
    (hs : ¬ memblock_cap_size b s = 0)
    (hfull : mb.memory.regions.length = mb.memory.max)
    (hone : 1 ≤ mb.memory.max)
    (hnomerge : (insertMerge mb.memory.regions
      ⟨b, memblock_cap_size b s, nid, fl⟩).length = mb.memory.max + 1)
    (hfind : findFit (pageAlign (2 * mb.memory.max * regionEntrySize))
      mb.bottom_up (freeForGrow mb .memory b (b + memblock_cap_size b s)) =
      some addr)
    (hsep : ∀ y ∈ mb.reserved.regions,
      y.stop < addr ∨ addr + pageAlign (2 * mb.memory.max * regionEntrySize) < y.base)
    (hcap : mb.reserved.regions.length < mb.reserved.max) :
    ∃ mb', memblock_add_range mb .memory b s nid fl = some mb' ∧
      mb'.memory.max = 2 * mb.memory.max ∧
      (∃ p q, mb.memory.regions = p ++ q ∧
        mb'.memory.regions = p ++ ⟨b, memblock_cap_size b s, nid, fl⟩ :: q) ∧
      mb'.memory.regions.length = mb.memory.regions.length + 1 ∧
      (∃ p q, mb.reserved.regions = p ++ q ∧
        mb'.reserved.regions = p ++
          ⟨addr, pageAlign (2 * mb.memory.max * regionEntrySize), numaNoNode, 0⟩
          :: q) ∧
      mb'.reserved.regions.length = mb.reserved.regions.length + 1 := by
  obtain ⟨rp, rq, hr1, hr2⟩ := insertMerge_separated
    (l := mb.reserved.regions)
    (r := ⟨addr, pageAlign (2 * mb.memory.max * regionEntrySize), numaNoNode, 0⟩)
    (by
      intro y hy
      rcases hsep y hy with hy1 | hy1
      · exact Or.inl hy1
      · exact Or.inr hy1)
  obtain ⟨p, q, hm1, hm2⟩ := insertMerge_of_length_succ
    (l := mb.memory.regions) (by rw [hfull]; exact hnomerge)
  have hlenr : mb.reserved.regions.length = rp.length + rq.length := by
    have := congrArg List.length hr1
    simpa [List.length_append] using this
  have hlen2 : (insertMerge mb.reserved.regions
      ⟨addr, pageAlign (2 * mb.memory.max * regionEntrySize), numaNoNode, 0⟩).length
      ≤ mb.reserved.max := by
    rw [hr2]
    simp only [List.length_append, List.length_cons]
    omega
  have hd : memblock_double_array mb .memory b (b + memblock_cap_size b s) =
      some { mb with
        memory := { mb.memory with
          max := 2 * mb.memory.max
          storage := some (addr, pageAlign (2 * mb.memory.max * regionEntrySize)) }
        reserved := { mb.reserved with
          regions := insertMerge mb.reserved.regions
            ⟨addr, pageAlign (2 * mb.memory.max * regionEntrySize), numaNoNode, 0⟩
          total_size := sumSizes (insertMerge mb.reserved.regions
            ⟨addr, pageAlign (2 * mb.memory.max * regionEntrySize), numaNoNode, 0⟩) } } := by
    simp only [memblock_double_array, getType, setType]
    rw [hfind]
    simp only [if_pos hlen2]
  have hfits : ¬ ((insertMerge mb.memory.regions
      ⟨b, memblock_cap_size b s, nid, fl⟩).length ≤ mb.memory.max) := by
    omega
  have hlen3 : (insertMerge mb.memory.regions
      ⟨b, memblock_cap_size b s, nid, fl⟩).length ≤ 2 * mb.memory.max := by
    omega
  refine ⟨{ mb with
      memory := { mb.memory with
        regions := insertMerge mb.memory.regions
          ⟨b, memblock_cap_size b s, nid, fl⟩
        max := 2 * mb.memory.max
        total_size := sumSizes (insertMerge mb.memory.regions
          ⟨b, memblock_cap_size b s, nid, fl⟩)
        storage := some (addr, pageAlign (2 * mb.memory.max * regionEntrySize)) }
      reserved := { mb.reserved with
        regions := insertMerge mb.reserved.regions
          ⟨addr, pageAlign (2 * mb.memory.max * regionEntrySize), numaNoNode, 0⟩
        total_size := sumSizes (insertMerge mb.reserved.regions
          ⟨addr, pageAlign (2 * mb.memory.max * regionEntrySize), numaNoNode, 0⟩) } },
    ?_, rfl, ⟨p, q, hm1, hm2⟩, ?_, ⟨rp, rq, hr1, hr2⟩, ?_⟩
  · simp only [memblock_add_range, if_neg hs, getType, setType]
    rw [if_neg hfits, hd]
    simp only [getType, setType, if_pos hlen3]
  · show (insertMerge mb.memory.regions _).length = _
    omega
  · show (insertMerge mb.reserved.regions _).length = _
    rw [hr2]
    simp only [List.length_append, List.length_cons]
    omega

theorem reserve_growth_spec (mb : Memblock) (b s : Nat) (nid : Int) (fl : Nat)
    (addr : Nat)
    (hs : ¬ memblock_cap_size b s = 0)
    (hfull : mb.reserved.regions.length = mb.reserved.max)
    (htwo : 2 ≤ mb.reserved.max)
    (hsepr : ∀ y ∈ mb.reserved.regions,
      y.stop < b ∨ b + memblock_cap_size b s < y.base)
    (hfind : findFit (pageAlign (2 * mb.reserved.max * regionEntrySize))
      mb.bottom_up (freeForGrow mb .reserved b (b + memblock_cap_size b s)) =
      some addr)
    (hseps : ∀ y ∈ mb.reserved.regions,
      y.stop < addr ∨
        addr + pageAlign (2 * mb.reserved.max * regionEntrySize) < y.base)
    (hrs : b + memblock_cap_size b s < addr ∨
      addr + pageAlign (2 * mb.reserved.max * regionEntrySize) < b) :
    ∃ mb', memblock_add_range mb .reserved b s nid fl = some mb' ∧
      mb'.reserved.max = 2 * mb.reserved.max ∧
      (∃ rp rq u v, mb.reserved.regions = rp ++ rq ∧
        u ++ v = rp ++
          ⟨addr, pageAlign (2 * mb.reserved.max * regionEntrySize), numaNoNode, 0⟩
          :: rq ∧
        mb'.reserved.regions = u ++ ⟨b, memblock_cap_size b s, nid, fl⟩ :: v) ∧
      mb'.reserved.regions.length = mb.reserved.regions.length + 2 := by
  obtain ⟨rp, rq, hr1, hr2⟩ := insertMerge_separated
    (l := mb.reserved.regions)
    (r := ⟨addr, pageAlign (2 * mb.reserved.max * regionEntrySize), numaNoNode, 0⟩)
    hseps
  obtain ⟨mp, mq, hm1, hm2⟩ := insertMerge_separated
    (l := mb.reserved.regions)
    (r := ⟨b, memblock_cap_size b s, nid, fl⟩)
    hsepr
  have hlenr : mb.reserved.regions.length = rp.length + rq.length := by
    have := congrArg List.length hr1
    simpa [List.length_append] using this
  have hlen2 : (insertMerge mb.reserved.regions
      ⟨addr, pageAlign (2 * mb.reserved.max * regionEntrySize), numaNoNode, 0⟩).length
      ≤ 2 * mb.reserved.max := by
    rw [hr2]
    simp only [List.length_append, List.length_cons]
    omega
  have hd : memblock_double_array mb .reserved b (b + memblock_cap_size b s) =
      some { mb with
        reserved := { mb.reserved with
          regions := insertMerge mb.reserved.regions
            ⟨addr, pageAlign (2 * mb.reserved.max * regionEntrySize), numaNoNode, 0⟩
          max := 2 * mb.reserved.max
          total_size := sumSizes (insertMerge mb.reserved.regions
            ⟨addr, pageAlign (2 * mb.reserved.max * regionEntrySize), numaNoNode, 0⟩)
          storage := some (addr,
            pageAlign (2 * mb.reserved.max * regionEntrySize)) } } := by
    simp only [memblock_double_array, getType, setType]
    rw [hfind]
    simp only [if_pos hlen2]
  have hfits : ¬ ((insertMerge mb.reserved.regions
      ⟨b, memblock_cap_size b s, nid, fl⟩).length ≤ mb.reserved.max) := by
    rw [hm2]
    have := congrArg List.length hm1
    simp only [List.length_append, List.length_cons] at *
    omega
  have hsep2 : ∀ y ∈ insertMerge mb.reserved.regions
      ⟨addr, pageAlign (2 * mb.reserved.max * regionEntrySize), numaNoNode, 0⟩,
      y.stop < b ∨
        b + memblock_cap_size b s <
          y.base := by
    intro y hy
    rw [hr2] at hy
    rcases List.mem_append.mp hy with hy1 | hy1
    · exact hsepr y (hr1 ▸ List.mem_append_left rq hy1)
    · rcases List.mem_cons.mp hy1 with rfl | hy2
      · rcases hrs with h | h
        · right
          exact h
        · left
          exact h
      · exact hsepr y (hr1 ▸ List.mem_append_right rp hy2)
  obtain ⟨u, v, hu1, hu2⟩ := insertMerge_separated
    (r := ⟨b, memblock_cap_size b s, nid, fl⟩) hsep2
  have hlenuv : u.length + v.length = mb.reserved.regions.length + 1 := by
    have h1 := congrArg List.length hu1
    have h2 := congrArg List.length hr2
    rw [hr2] at h1
    simp only [List.length_append, List.length_cons] at h1 h2 ⊢
    omega
  have hlen3 : (insertMerge (insertMerge mb.reserved.regions
      ⟨addr, pageAlign (2 * mb.reserved.max * regionEntrySize), numaNoNode, 0⟩)
      ⟨b, memblock_cap_size b s, nid, fl⟩).length ≤ 2 * mb.reserved.max := by
    rw [hu2]
    simp only [List.length_append, List.length_cons]
    omega
  refine ⟨{ mb with
      reserved := { mb.reserved with
        regions := insertMerge (insertMerge mb.reserved.regions
          ⟨addr, pageAlign (2 * mb.reserved.max * regionEntrySize), numaNoNode, 0⟩)
          ⟨b, memblock_cap_size b s, nid, fl⟩
        max := 2 * mb.reserved.max
        total_size := sumSizes (insertMerge (insertMerge mb.reserved.regions
          ⟨addr, pageAlign (2 * mb.reserved.max * regionEntrySize), numaNoNode, 0⟩)
          ⟨b, memblock_cap_size b s, nid, fl⟩)
        storage := some (addr,
          pageAlign (2 * mb.reserved.max * regionEntrySize)) } },
    ?_, rfl, ⟨rp, rq, u, v, hr1, hu1.symm.trans hr2, hu2⟩, ?_⟩
  · simp only [memblock_add_range, if_neg hs, getType, setType]
    rw [if_neg hfits, hd]
    simp only [getType, setType, if_pos hlen3]
  · show (insertMerge (insertMerge mb.reserved.regions _) _).length = _
    rw [hu2]
    simp only [List.length_append, List.length_cons]
    omega

/-- C1: when a collection is at full capacity and an insert that cannot merge
is requested, the grower runs transparently: every pre-existing region of the
collection is still present unchanged and in order, the capacity field `max`
is exactly doubled, exactly one new region of the new backing storage's size
(the doubled entry count times the entry size, page aligned) appears in the
claimed collection, and the originally requested insert then completes
normally — both when the available collection grows and when the claimed
collection grows. -/
theorem claim_C1_growth_safety :
    (∀ (mb : Memblock) (b s : Nat) (nid : Int) (fl : Nat) (addr : Nat),
      ¬ memblock_cap_size b s = 0 →
      mb.memory.regions.length = mb.memory.max →
      1 ≤ mb.memory.max →
      (insertMerge mb.memory.regions
        ⟨b, memblock_cap_size b s, nid, fl⟩).length = mb.memory.max + 1 →
      findFit (pageAlign (2 * mb.memory.max * regionEntrySize)) mb.bottom_up
        (freeForGrow mb .memory b (b + memblock_cap_size b s)) = some addr →
      (∀ y ∈ mb.reserved.regions, y.stop < addr ∨
        addr + pageAlign (2 * mb.memory.max * regionEntrySize) < y.base) →
      mb.reserved.regions.length < mb.reserved.max →
      ∃ mb', memblock_add_range mb .memory b s nid fl = some mb' ∧
        mb'.memory.max = 2 * mb.memory.max ∧
        (∃ p q, mb.memory.regions = p ++ q ∧
          mb'.memory.regions = p ++ ⟨b, memblock_cap_size b s, nid, fl⟩ :: q) ∧
        mb'.memory.regions.length = mb.memory.regions.length + 1 ∧
        (∃ p q, mb.reserved.regions = p ++ q ∧
          mb'.reserved.regions = p ++
            ⟨addr, pageAlign (2 * mb.memory.max * regionEntrySize), numaNoNode, 0⟩
            :: q) ∧
        mb'.reserved.regions.length = mb.reserved.regions.length + 1) ∧
    (∀ (mb : Memblock) (b s : Nat) (nid : Int) (fl : Nat) (addr : Nat),
      ¬ memblock_cap_size b s = 0 →
      mb.reserved.regions.length = mb.reserved.max →
      2 ≤ mb.reserved.max →
      (∀ y ∈ mb.reserved.regions,
        y.stop < b ∨ b + memblock_cap_size b s < y.base) →
      findFit (pageAlign (2 * mb.reserved.max * regionEntrySize)) mb.bottom_up
        (freeForGrow mb .reserved b (b + memblock_cap_size b s)) = some addr →
      (∀ y ∈ mb.reserved.regions, y.stop < addr ∨
        addr + pageAlign (2 * mb.reserved.max * regionEntrySize) < y.base) →
      (b + memblock_cap_size b s < addr ∨
        addr + pageAlign (2 * mb.reserved.max * regionEntrySize) < b) →
      ∃ mb', memblock_add_range mb .reserved b s nid fl = some mb' ∧
        mb'.reserved.max = 2 * mb.reserved.max ∧
        (∃ rp rq u v, mb.reserved.regions = rp ++ rq ∧
          u ++ v = rp ++
            ⟨addr, pageAlign (2 * mb.reserved.max * regionEntrySize),
              numaNoNode, 0⟩ :: rq ∧
          mb'.reserved.regions = u ++ ⟨b, memblock_cap_size b s, nid, fl⟩ :: v) ∧
        mb'.reserved.regions.length = mb.reserved.regions.length + 2) := by
  constructor
  · intro mb b s nid fl addr h1 h2 h3 h4 h5 h6 h7
    exact add_growth_spec mb b s nid fl addr h1 h2 h3 h4 h5 h6 h7
  · intro mb b s nid fl addr h1 h2 h3 h4 h5 h6 h7
    exact reserve_growth_spec mb b s nid fl addr h1 h2 h3 h4 h5 h6 h7

theorem claim_C1_growth_safety_witness :
    (∃ mb', memblock_add_range growMemDemo .memory 131072 64 numaNoNode 0 =
        some mb' ∧
      mb'.memory.max = 2 * growMemDemo.memory.max ∧
      (∃ p q, growMemDemo.memory.regions = p ++ q ∧
        mb'.memory.regions = p ++
          ⟨131072, memblock_cap_size 131072 64, numaNoNode, 0⟩ :: q) ∧
      mb'.memory.regions.length = growMemDemo.memory.regions.length + 1 ∧
      (∃ p q, growMemDemo.reserved.regions = p ++ q ∧
        mb'.reserved.regions = p ++
          ⟨8192, pageAlign (2 * growMemDemo.memory.max * regionEntrySize),
            numaNoNode, 0⟩ :: q) ∧
      mb'.reserved.regions.length = growMemDemo.reserved.regions.length + 1) ∧
    (∃ mb', memblock_add_range growDemo .reserved 131072 64 numaNoNode 0 =
        some mb' ∧
      mb'.reserved.max = 2 * growDemo.reserved.max ∧
      (∃ rp rq u v, growDemo.reserved.regions = rp ++ rq ∧
        u ++ v = rp ++
          ⟨8192, pageAlign (2 * growDemo.reserved.max * regionEntrySize),
            numaNoNode, 0⟩ :: rq ∧
        mb'.reserved.regions = u ++
          ⟨131072, memblock_cap_size 131072 64, numaNoNode, 0⟩ :: v) ∧
      mb'.reserved.regions.length = growDemo.reserved.regions.length + 2) :=
  ⟨claim_C1_growth_safety.1 growMemDemo 131072 64 numaNoNode 0 8192
      (by decide) (by decide) (by decide) (by decide) (by decide) (by decide)
      (by decide),
    claim_C1_growth_safety.2 growDemo 131072 64 numaNoNode 0 8192
      (by decide) (by decide) (by decide) (by decide) (by decide) (by decide)
      (by decide)⟩
